import Mathlib

/-!
Shallow embedding of the daily-plan generator (full variant
`.scripts/auto_daily_plan.py` and minimal variant
`community/scripts/auto_daily_plan_min.py`), together with theorems
checking the specification's claims about phase resolution, the
due-review scanner, the time-block allocator, checklist parsing and
idempotent persistence.
-/

/-! ## Calendar dates

Python `datetime.date` values compare by (year, month, day); the scanner
computes elapsed days via ordinal subtraction.  We embed a date as a
(year, month, day) triple and give it the proleptic-Gregorian ordinal
(`toOrd`, matching `date.toordinal`); comparisons are embedded as
ordinal comparisons, which agree with Python's date ordering on valid
dates. -/

structure Date where
  year : Nat
  month : Nat
  day : Nat
deriving DecidableEq

def isLeapYear (y : Nat) : Bool :=
  y % 4 == 0 && (y % 100 != 0 || y % 400 == 0)

def daysInMonth (y m : Nat) : Nat :=
  if m = 2 then (if isLeapYear y then 29 else 28)
  else if m = 4 ∨ m = 6 ∨ m = 9 ∨ m = 11 then 30
  else 31

/-- Days in year `y` strictly before month `m` (months counted 1..12). -/
def daysBeforeMonth (y : Nat) : Nat → Nat
  | 0 => 0
  | 1 => 0
  | m + 1 => daysBeforeMonth y m + daysInMonth y m

/-- Proleptic-Gregorian ordinal of a date, as in Python's
`date.toordinal` (so `toOrd ⟨1,1,1⟩ = 1`). -/
def toOrd (dt : Date) : Nat :=
  let n := dt.year - 1
  (365 * n + n / 4 + n / 400 - n / 100) + daysBeforeMonth dt.year dt.month + dt.day

/-- `date(y, m, d)` construction succeeds in Python exactly when the
month and day are in range (years produced by the filename pattern are
always 20xx, inside Python's representable range). -/
def validYMD (y m d : Nat) : Bool :=
  1 ≤ m && m ≤ 12 && 1 ≤ d && d ≤ daysInMonth y m

/-! ## Stable insertion sort

Python's `sorted` is stable; we embed it with a stable insertion sort
parameterised by a boolean `le` comparison (for ascending order,
`le a b` must hold when `a`'s key is less than or equal to `b`'s;
stability follows because an element is inserted before the first
element it is `le`-related to). -/

def ins {α : Type} (le : α → α → Bool) (x : α) : List α → List α
  | [] => [x]
  | y :: ys => if le x y then x :: y :: ys else y :: ins le x ys

def isort {α : Type} (le : α → α → Bool) : List α → List α
  | [] => []
  | x :: xs => ins le x (isort le xs)

theorem mem_ins {α : Type} (le : α → α → Bool) (x a : α) (l : List α) :
    a ∈ ins le x l ↔ a = x ∨ a ∈ l := by
  induction l with
  | nil => simp [ins]
  | cons y ys ih =>
    simp only [ins]
    split
    · simp
    · simp [ih]
      tauto

theorem length_ins {α : Type} (le : α → α → Bool) (x : α) (l : List α) :
    (ins le x l).length = l.length + 1 := by
  induction l with
  | nil => rfl
  | cons y ys ih =>
    simp only [ins]
    split
    · simp
    · simp [ih]

theorem length_isort {α : Type} (le : α → α → Bool) (l : List α) :
    (isort le l).length = l.length := by
  induction l with
  | nil => rfl
  | cons x xs ih => simp [isort, length_ins, ih]

theorem mem_isort {α : Type} (le : α → α → Bool) (a : α) (l : List α) :
    a ∈ isort le l ↔ a ∈ l := by
  induction l with
  | nil => simp [isort]
  | cons x xs ih => simp [isort, mem_ins, ih]

theorem pairwise_ins {α : Type} (le : α → α → Bool)
    (htot : ∀ a b, le a b = true ∨ le b a = true)
    (htrans : ∀ a b c, le a b = true → le b c = true → le a c = true)
    (x : α) :
    ∀ (l : List α), List.Pairwise (fun a b => le a b = true) l →
      List.Pairwise (fun a b => le a b = true) (ins le x l)
  | [], _ => by simp [ins]
  | y :: ys, hl => by
    rw [List.pairwise_cons] at hl
    obtain ⟨hy, hys⟩ := hl
    simp only [ins]
    split
    · rename_i hxy
      refine List.Pairwise.cons ?_ (List.Pairwise.cons hy hys)
      intro z hz
      rcases List.mem_cons.mp hz with rfl | hz
      · exact hxy
      · exact htrans x y z hxy (hy z hz)
    · rename_i hxy
      refine List.Pairwise.cons ?_ (pairwise_ins le htot htrans x ys hys)
      intro z hz
      rcases (mem_ins le x z ys).mp hz with rfl | hz
      · rcases htot z y with h | h
        · exact absurd h hxy
        · exact h
      · exact hy z hz

theorem pairwise_isort {α : Type} (le : α → α → Bool)
    (htot : ∀ a b, le a b = true ∨ le b a = true)
    (htrans : ∀ a b c, le a b = true → le b c = true → le a c = true)
    (l : List α) :
    List.Pairwise (fun a b => le a b = true) (isort le l) := by
  induction l with
  | nil => simp [isort]
  | cons x xs ih => exact pairwise_ins le htot htrans x (isort le xs) ih

/-- The last element of a pairwise-ordered list is related to every
other member. -/
theorem pairwise_last_max {α : Type} {R : α → α → Prop} :
    ∀ (l : List α), List.Pairwise R l → ∀ (h : l ≠ []) (a : α), a ∈ l →
      a = l.getLast h ∨ R a (l.getLast h)
  | [], _, h, _, _ => absurd rfl h
  | [q], hp, h, a, ha => by
      simp at ha
      simp [ha]
  | q :: y :: ys, hp, h, a, ha => by
      rw [List.pairwise_cons] at hp
      obtain ⟨hq, hp⟩ := hp
      have hlast : (q :: y :: ys).getLast h = (y :: ys).getLast (by simp) :=
        List.getLast_cons (by simp)
      rw [hlast]
      rcases List.mem_cons.mp ha with rfl | ha
      · right
        exact hq _ (List.getLast_mem (by simp))
      · exact pairwise_last_max (y :: ys) hp (by simp) a ha

/-! ## Filename date extraction (full variant)

`DATE_IN_FILENAME_RE = re.compile(r"(20\d\x7b2\x7d)(\d\x7b2\x7d)(\d\x7b2\x7d)")`;
`re.search` returns the leftmost match, after which the digits are fed
to `date(...)`, yielding `None` on an invalid calendar date. -/

def digitVal (c : Char) : Nat := c.toNat - 48

/-- Try to match `20` followed by six digits at the head of the
character list, returning the (year, month, day) digit groups. -/
def matchDate8 : List Char → Option (Nat × Nat × Nat)
  | c0 :: c1 :: c2 :: c3 :: c4 :: c5 :: c6 :: c7 :: _ =>
    if c0 == '2' && c1 == '0' && c2.isDigit && c3.isDigit && c4.isDigit
        && c5.isDigit && c6.isDigit && c7.isDigit then
      some (2000 + 10 * digitVal c2 + digitVal c3,
            10 * digitVal c4 + digitVal c5,
            10 * digitVal c6 + digitVal c7)
    else none
  | _ => none

/-- Leftmost match of the 8-digit date pattern. -/
def findDate8 : List Char → Option (Nat × Nat × Nat)
  | [] => none
  | c :: cs =>
    match matchDate8 (c :: cs) with
    | some r => some r
    | none => findDate8 cs

def extract_date_from_filename (file_name : String) : Option Date :=
  match findDate8 file_name.data with
  | none => none
  | some (y, m, d) => if validYMD y m d then some ⟨y, m, d⟩ else none

/-! ## Severity classification (full variant) -/

def HIGH_SEVERITY_KEYWORDS : List String := ["high", "高频", "重错", "难"]

/-- Contiguous-substring test on character lists (Python's `in` on
strings). -/
def listSubstr (pat : List Char) : List Char → Bool
  | [] => pat.isEmpty
  | c :: cs => pat.isPrefixOf (c :: cs) || listSubstr pat cs

/-- `keyword in file_name.lower()`: the lower-cased character sequence
of the filename contains the keyword as a substring. -/
def containsKw (file_name kw : String) : Bool :=
  listSubstr kw.data (file_name.data.map Char.toLower)

def choose_interval_type (file_name : String) : String :=
  if HIGH_SEVERITY_KEYWORDS.any (fun kw => containsKw file_name kw)
  then "high" else "low"

/-! ## Due-review scanner (full variant)

The filesystem walk `sorted(error_root.glob("*/images/*"))` is embedded
as the (already globbed and sorted) list of file entries, each carrying
its grandparent-directory name (`chapter`) and filename; a missing
`error_root` is the `rootExists = false` case. -/

structure ErrFile where
  chapter : String
  name : String
deriving DecidableEq

/-- Dictionary increment, preserving insertion order of keys
(`due_counts[chapter] = due_counts.get(chapter, 0) + 1`). -/
def bump : List (String × Nat) → String → List (String × Nat)
  | [], c => [(c, 1)]
  | (k, v) :: rest, c =>
    if k = c then (k, v + 1) :: rest else (k, v) :: bump rest c

/-- Loop body of `scan_due_error_reviews` for one file entry. -/
def scanStep (low high : List Nat) (today : Date)
    (acc : List (String × Nat)) (f : ErrFile) : List (String × Nat) :=
  match extract_date_from_filename f.name with
  | none => acc
  | some occurred_on =>
    if toOrd today < toOrd occurred_on then acc
    else
      let delta_days := toOrd today - toOrd occurred_on
      let intervals := if choose_interval_type f.name = "high" then high else low
      if intervals.contains delta_days then bump acc f.chapter else acc

/-- `dict(sorted(due_counts.items(), key=lambda item: item[0]))`. -/
def sortPairs (l : List (String × Nat)) : List (String × Nat) :=
  isort (fun a b => decide (a.1 ≤ b.1)) l

def scan_due_error_reviews (rootExists : Bool) (low high : List Nat)
    (today : Date) (files : List ErrFile) : List (String × Nat) :=
  if rootExists then sortPairs (files.foldl (scanStep low high today) [])
  else []

/-- Total number of due items across all categories. -/
def sumCounts (l : List (String × Nat)) : Nat := (l.map Prod.snd).sum

/-- Spec-side due predicate for a single scanned entry: a parseable
occurrence date not after the target date whose elapsed-day count lies
in the interval set of the entry's severity class (high iff the
lower-cased filename contains a high-severity keyword). -/
def isDueSpec (low high : List Nat) (today : Date) (f : ErrFile) : Bool :=
  match extract_date_from_filename f.name with
  | none => false
  | some occ =>
    decide (toOrd occ ≤ toOrd today) &&
      ((if HIGH_SEVERITY_KEYWORDS.any (fun kw => containsKw f.name kw)
        then high else low).contains (toOrd today - toOrd occ))

/-! ## Phase resolution

Full variant `determine_phase` (linear scan, then sort-by-start
fallback) and minimal variant `choose_phase` (linear scan, then last
configured phase).  Config-parsing is embedded by carrying already
parsed dates in the `Phase` record; the `ValueError` raised on an empty
phase list is embedded as `none`. -/

structure Phase where
  name : String
  start : Date
  stop : Date
  allocation : List (String × ℚ)
deriving DecidableEq

/-- `start <= today <= end` on dates. -/
def coversB (today : Date) (p : Phase) : Bool :=
  decide (toOrd p.start ≤ toOrd today) && decide (toOrd today ≤ toOrd p.stop)

/-- Ascending comparison by `start_date` used by the fallback sort. -/
def phaseLe (a b : Phase) : Bool := decide (toOrd a.start ≤ toOrd b.start)

def determine_phase (today : Date) (phases : List Phase) : Option Phase :=
  match phases.find? (coversB today) with
  | some p => some p
  | none =>
    match isort phaseLe phases with
    | [] => none
    | q :: qs =>
      if toOrd today < toOrd q.start then some q
      else some ((q :: qs).getLast (List.cons_ne_nil q qs))

def choose_phase (today : Date) (phases : List Phase) : Option Phase :=
  match phases.find? (coversB today) with
  | some p => some p
  | none => phases.getLast?

/-! ## Time-block allocation (minimal variant) -/

def SUBJECT_LABEL : List (String × String) :=
  [("math", "数学"), ("major", "专业课"), ("english", "英语"),
   ("politics", "政治"), ("review", "复盘")]

def SUBJECT_EMOJI : List (String × String) :=
  [("math", "🧮"), ("major", "📡"), ("english", "📝"),
   ("politics", "📚"), ("review", "📊")]

def TIME_BLOCKS : List (String × String) :=
  [("08:00", "10:00"), ("10:20", "12:00"), ("14:00", "16:00"),
   ("16:20", "18:00"), ("19:00", "21:00"), ("21:10", "21:40")]

/-- `sorted(allocation.items(), key=lambda item: item[1], reverse=True)`
followed by the label-table filter and the default fallback.  The
allocation mapping is embedded as its (insertion-ordered) item list;
weights as exact rationals. -/
def build_subject_sequence (allocation : List (String × ℚ)) : List String :=
  let sorted_pairs := isort (fun a b => decide (b.2 ≤ a.2)) allocation
  let subjects := (sorted_pairs.map Prod.fst).filter
    (fun key => (SUBJECT_LABEL.lookup key).isSome)
  if subjects.isEmpty then ["math", "major", "english", "review"] else subjects

structure Block where
  start : String
  stop : String
  emoji : String
  label : String
  task : String
deriving DecidableEq

def dummyBlock : Block := ⟨"", "", "", "", ""⟩

/-- Subject chosen for the window at index `idx`: the final window is
forced to `review` when present, otherwise round-robin. -/
def pick_subject (subjects : List String) (idx : Nat) : String :=
  if idx == TIME_BLOCKS.length - 1 && subjects.contains "review" then "review"
  else subjects.getD (idx % subjects.length) ""

/-- Assembly of one block from its subject and window. -/
def make_block (templates : List (String × String))
    (subject start stop : String) : Block :=
  let label := (SUBJECT_LABEL.lookup subject).getD subject
  let emoji := (SUBJECT_EMOJI.lookup subject).getD "📌"
  let task := (templates.lookup subject).getD (label ++ "重点任务")
  ⟨start, stop, emoji, label, task⟩

def build_plan_blocks (allocation : List (String × ℚ))
    (templates : List (String × String)) : List Block :=
  let subjects := build_subject_sequence allocation
  TIME_BLOCKS.enum.map (fun p => make_block templates (pick_subject subjects p.1) p.2.1 p.2.2)

/-! ## Prior-day checklist parsing

`CHECKBOX_DONE_RE = ^- \[[xX]\]\s*(.+)$` and
`CHECKBOX_TODO_RE = ^- \[ \]\s*(.+)$` in MULTILINE mode match exactly
the lines starting with the five-character checkbox prefix followed by
at least one character; the captured group, once stripped, equals the
stripped remainder after the prefix.  A missing prior file is the
`none` case. -/

/-- Newline split of a text, as Python's `str.split` on a single
newline; the segments are exactly the lines scanned by the MULTILINE
anchors. -/
def splitNl : List Char → List (List Char)
  | [] => [[]]
  | c :: cs =>
    if c = '\n' then [] :: splitNl cs
    else
      match splitNl cs with
      | [] => [[c]]
      | l :: ls => (c :: l) :: ls

def lines (text : String) : List String := (splitNl text.data).map List.asString

/-- Leading and trailing whitespace removal (Python `str.strip`). -/
def trimChars (l : List Char) : List Char :=
  ((l.dropWhile Char.isWhitespace).reverse.dropWhile Char.isWhitespace).reverse

def isDoneLine (l : String) : Bool :=
  ("- [x]".data.isPrefixOf l.data || "- [X]".data.isPrefixOf l.data) &&
    decide (5 < l.data.length)

def isTodoLine (l : String) : Bool :=
  "- [ ]".data.isPrefixOf l.data && decide (5 < l.data.length)

/-- Stripped text after the checkbox marker (equal to the stripped
regex capture group). -/
def todoText (l : String) : String := (trimChars (l.data.drop 5)).asString

structure YesterdayStats where
  completed : Nat
  pending : Nat
  completion_rate : ℚ
  unfinished_tasks : List String
deriving DecidableEq

/-- Full-variant `parse_yesterday_stats`. -/
def parse_yesterday_stats (contents : Option String) : YesterdayStats :=
  match contents with
  | none => ⟨0, 0, 0, ["无昨日计划文件或未记录任务"]⟩
  | some text =>
    let ls := lines text
    let completed := ls.countP isDoneLine
    let pending := ls.countP isTodoLine
    let total := completed + pending
    let rate : ℚ := if total = 0 then 0 else (completed : ℚ) / (total : ℚ)
    let unfinished :=
      ((ls.filter isTodoLine).map todoText).filter (fun s => decide (s ≠ ""))
    ⟨completed, pending, rate, if unfinished = [] then ["无"] else unfinished⟩

/-- Minimal-variant `parse_yesterday_stats` (returns the carry list and
the completion rate). -/
def parse_yesterday_stats_min (contents : Option String) (carry_limit : Nat) :
    List String × ℚ :=
  match contents with
  | none => ([], 0)
  | some text =>
    let ls := lines text
    let todo := ((ls.filter isTodoLine).map todoText).filter (fun s => decide (s ≠ ""))
    let done := ls.countP isDoneLine
    let total := todo.length + done
    let rate : ℚ := if total = 0 then 0 else (done : ℚ) / (total : ℚ)
    (todo.take carry_limit, rate)

/-- Modelled from the spec's completion-rate sentence as the claims
state it: `completed/(completed+pending)` where completed counts
checked-box lines and pending counts unchecked-box lines, `0` when both
are zero.  Kept separate so the implementations can be compared against
it. -/
def spec_completion_rate (text : String) : ℚ :=
  let d := (lines text).countP isDoneLine
  let p := (lines text).countP isTodoLine
  if d + p = 0 then 0 else (d : ℚ) / ((d + p : Nat) : ℚ)

/-- The carry list as the claim states it: the trimmed texts of all
unchecked-box lines, in source order, truncated to `carry_limit`. -/
def spec_carry_list (text : String) (carry_limit : Nat) : List String :=
  (((lines text).filter isTodoLine).map todoText).take carry_limit

/-! ## Idempotent persistence

The persistence step of both `main` functions: if the date-keyed output
path already exists (and, in the minimal variant, `--force` was not
given), skip the write and terminate normally; otherwise write the
content.  The file system is embedded as a map from paths to contents;
the returned boolean is `written`. -/

def persist (fs : String → Option String) (path content : String)
    (force : Bool) : (String → Option String) × Bool :=
  if (fs path).isSome && !force then (fs, false)
  else (fun q => if q = path then some content else fs q, true)

/-! ## Scanner lemmas -/

theorem sumCounts_bump : ∀ (m : List (String × Nat)) (c : String),
    sumCounts (bump m c) = sumCounts m + 1
  | [], c => by simp [bump, sumCounts]
  | (k, v) :: rest, c => by
    simp only [bump]
    split
    · simp [sumCounts]
      omega
    · simp [sumCounts]
      have := sumCounts_bump rest c
      simp [sumCounts] at this
      omega

theorem scanStep_eq (low high : List Nat) (today : Date)
    (acc : List (String × Nat)) (f : ErrFile) :
    scanStep low high today acc f =
      if isDueSpec low high today f then bump acc f.chapter else acc := by
  unfold scanStep isDueSpec
  cases h : extract_date_from_filename f.name with
  | none => simp
  | some occ =>
    simp only
    have hct : (if choose_interval_type f.name = "high" then high else low) =
        (if HIGH_SEVERITY_KEYWORDS.any (fun kw => containsKw f.name kw)
         then high else low) := by
      unfold choose_interval_type
      split <;> simp
    rw [hct]
    by_cases hc : toOrd today < toOrd occ
    · have : decide (toOrd occ ≤ toOrd today) = false := by
        simp
        omega
      simp [hc, this]
    · have : decide (toOrd occ ≤ toOrd today) = true := by
        simp
        omega
      simp [hc, this]

theorem foldl_scan_sum (low high : List Nat) (today : Date) :
    ∀ (files : List ErrFile) (acc : List (String × Nat)),
      sumCounts (files.foldl (scanStep low high today) acc) =
        sumCounts acc + files.countP (isDueSpec low high today)
  | [], acc => by simp [sumCounts]
  | f :: fs, acc => by
    simp only [List.foldl_cons, List.countP_cons]
    rw [foldl_scan_sum low high today fs, scanStep_eq]
    by_cases h : isDueSpec low high today f
    · simp [h, sumCounts_bump]
      omega
    · simp [h]

theorem sumCounts_ins (le : String × Nat → String × Nat → Bool)
    (x : String × Nat) : ∀ (l : List (String × Nat)),
    sumCounts (ins le x l) = x.2 + sumCounts l
  | [] => by simp [ins, sumCounts]
  | y :: ys => by
    simp only [ins]
    split
    · simp [sumCounts]
    · simp only [sumCounts, List.map_cons, List.sum_cons]
      have := sumCounts_ins le x ys
      simp only [sumCounts] at this
      omega

theorem sumCounts_sortPairs : ∀ (l : List (String × Nat)),
    sumCounts (sortPairs l) = sumCounts l
  | [] => rfl
  | x :: xs => by
    simp only [sortPairs, isort]
    rw [sumCounts_ins, show isort (fun a b => decide (a.1 ≤ b.1)) xs = sortPairs xs from rfl,
      sumCounts_sortPairs xs]
    simp [sumCounts]

/-- C1: an error item whose filename holds a parseable occurrence date
not after the target date is counted as due exactly when the elapsed
day count lies in the interval set of its severity class (high iff the
lower-cased filename contains a high-severity keyword); a future-dated
item is never counted. -/
theorem scan_counts_due_iff_interval :
    (∀ (low high : List Nat) (today : Date) (files : List ErrFile),
      sumCounts (scan_due_error_reviews true low high today files) =
        files.countP (isDueSpec low high today)) ∧
    (∀ (low high : List Nat) (today : Date) (f : ErrFile) (files : List ErrFile)
        (occ : Date),
      extract_date_from_filename f.name = some occ →
      toOrd today < toOrd occ →
      scan_due_error_reviews true low high today (f :: files) =
        scan_due_error_reviews true low high today files) ∧
    (∀ name, choose_interval_type name = "high" ↔
      HIGH_SEVERITY_KEYWORDS.any (fun kw => containsKw name kw) = true) := by
  refine ⟨?_, ?_, ?_⟩
  · intro low high today files
    simp only [scan_due_error_reviews, if_pos]
    rw [sumCounts_sortPairs, foldl_scan_sum]
    simp [sumCounts]
  · intro low high today f files occ hocc hfut
    simp only [scan_due_error_reviews, if_pos, List.foldl_cons]
    have : scanStep low high today [] f = [] := by
      unfold scanStep
      rw [hocc]
      simp [hfut]
    rw [this]
  · intro name
    unfold choose_interval_type
    split <;> simp_all

/-- Witness for C1 at a concrete future-dated item: an item dated
2099-12-31 scanned on 2025-01-08 contributes nothing. -/
theorem scan_counts_due_iff_interval_witness :
    scan_due_error_reviews true [3, 7] [] ⟨2025, 1, 8⟩
        [⟨"导数", "x_20991231.png"⟩] =
      scan_due_error_reviews true [3, 7] [] ⟨2025, 1, 8⟩ [] :=
  scan_counts_due_iff_interval.2.1 [3, 7] [] ⟨2025, 1, 8⟩
    ⟨"导数", "x_20991231.png"⟩ [] ⟨2099, 12, 31⟩ rfl (by decide)

/-- C5: the scan silently skips entries whose filename has no parseable
8-digit date (including invalid calendar digits), and a missing error
root yields an empty summary rather than an error. -/
theorem scan_lenient_skip :
    (∀ (low high : List Nat) (today : Date) (files : List ErrFile),
      scan_due_error_reviews false low high today files = []) ∧
    (∀ (low high : List Nat) (today : Date) (f : ErrFile) (files : List ErrFile),
      extract_date_from_filename f.name = none →
      scan_due_error_reviews true low high today (f :: files) =
        scan_due_error_reviews true low high today files) := by
  constructor
  · intro low high today files
    simp [scan_due_error_reviews]
  · intro low high today f files hnone
    simp only [scan_due_error_reviews, if_pos, List.foldl_cons]
    have : scanStep low high today [] f = [] := by
      unfold scanStep
      rw [hnone]
    rw [this]

/-- Witness for C5: a filename whose embedded digits 20251399 are not a
valid calendar date is skipped. -/
theorem scan_lenient_skip_witness :
    scan_due_error_reviews true [3, 7] [1] ⟨2025, 1, 8⟩
        [⟨"导数", "notes_20251399.png"⟩] =
      scan_due_error_reviews true [3, 7] [1] ⟨2025, 1, 8⟩ [] :=
  scan_lenient_skip.2 [3, 7] [1] ⟨2025, 1, 8⟩
    ⟨"导数", "notes_20251399.png"⟩ [] rfl

/-! ## Phase resolution lemmas -/

theorem phaseLe_total : ∀ a b : Phase, phaseLe a b = true ∨ phaseLe b a = true := by
  intro a b
  simp [phaseLe]
  omega

theorem phaseLe_trans : ∀ a b c : Phase,
    phaseLe a b = true → phaseLe b c = true → phaseLe a c = true := by
  intro a b c
  simp [phaseLe]
  omega

theorem isort_phase_ne_nil {phases : List Phase} (h : phases ≠ []) :
    isort phaseLe phases ≠ [] := by
  intro hnil
  have := length_isort phaseLe phases
  rw [hnil] at this
  exact h (List.length_eq_zero.mp this.symm)

theorem determine_phase_mem (today : Date) (phases : List Phase)
    (h : phases ≠ []) : ∃ p ∈ phases, determine_phase today phases = some p := by
  unfold determine_phase
  cases hf : phases.find? (coversB today) with
  | some p => exact ⟨p, List.mem_of_find?_eq_some hf, rfl⟩
  | none =>
    cases hs : isort phaseLe phases with
    | nil => exact absurd hs (isort_phase_ne_nil h)
    | cons q qs =>
      by_cases hq : toOrd today < toOrd q.start
      · refine ⟨q, ?_, by simp [hq]⟩
        have : q ∈ isort phaseLe phases := by
          rw [hs]
          exact List.mem_cons_self q qs
        exact (mem_isort phaseLe q phases).mp this
      · refine ⟨(q :: qs).getLast (List.cons_ne_nil q qs), ?_, by simp [hq]⟩
        have : (q :: qs).getLast (List.cons_ne_nil q qs) ∈ isort phaseLe phases := by
          rw [hs]
          exact List.getLast_mem (List.cons_ne_nil q qs)
        exact (mem_isort phaseLe _ phases).mp this

theorem choose_phase_mem (today : Date) (phases : List Phase)
    (h : phases ≠ []) : ∃ p ∈ phases, choose_phase today phases = some p := by
  unfold choose_phase
  cases hf : phases.find? (coversB today) with
  | some p => exact ⟨p, List.mem_of_find?_eq_some hf, rfl⟩
  | none =>
    refine ⟨phases.getLast h, List.getLast_mem h, ?_⟩
    simp [List.getLast?_eq_getLast phases h]

/-- C8: phase resolution (both variants) fails exactly on an empty
phase list, and on a non-empty list always returns a member of it. -/
theorem phase_resolution_total_iff :
    (∀ (today : Date) (phases : List Phase),
      determine_phase today phases = none ↔ phases = []) ∧
    (∀ (today : Date) (phases : List Phase),
      choose_phase today phases = none ↔ phases = []) ∧
    (∀ (today : Date) (phases : List Phase), phases ≠ [] →
      ∃ p ∈ phases, determine_phase today phases = some p) ∧
    (∀ (today : Date) (phases : List Phase), phases ≠ [] →
      ∃ p ∈ phases, choose_phase today phases = some p) := by
  refine ⟨?_, ?_, determine_phase_mem, choose_phase_mem⟩
  · intro today phases
    constructor
    · intro hnone
      by_contra h
      obtain ⟨p, _, hp⟩ := determine_phase_mem today phases h
      rw [hnone] at hp
      exact Option.noConfusion hp
    · rintro rfl
      rfl
  · intro today phases
    constructor
    · intro hnone
      by_contra h
      obtain ⟨p, _, hp⟩ := choose_phase_mem today phases h
      rw [hnone] at hp
      exact Option.noConfusion hp
    · rintro rfl
      rfl

/-- Witness for C8 on a concrete one-phase configuration. -/
theorem phase_resolution_total_iff_witness :
    ∃ p ∈ [(⟨"基础", ⟨2025, 2, 1⟩, ⟨2025, 6, 30⟩, []⟩ : Phase)],
      determine_phase ⟨2025, 1, 1⟩ [⟨"基础", ⟨2025, 2, 1⟩, ⟨2025, 6, 30⟩, []⟩] = some p :=
  phase_resolution_total_iff.2.2.1 ⟨2025, 1, 1⟩
    [⟨"基础", ⟨2025, 2, 1⟩, ⟨2025, 6, 30⟩, []⟩] (by decide)

/-- C2 (amended): the full-variant resolver returns the first phase in
configuration order covering the target date when one exists (as does
the minimal variant); with no covering phase, the full variant sorts by
start date and returns the earliest phase when the date precedes the
earliest start and otherwise the latest-starting phase, while the
minimal variant returns the last configured phase. -/
theorem phase_resolution_amended :
    (∀ (today : Date) (phases : List Phase) (p : Phase),
      phases.find? (coversB today) = some p →
      p ∈ phases ∧ coversB today p = true ∧
        determine_phase today phases = some p ∧
        choose_phase today phases = some p) ∧
    (∀ (today : Date) (phases : List Phase), phases ≠ [] →
      (∀ p ∈ phases, toOrd today < toOrd p.start) →
      ∃ q ∈ phases, determine_phase today phases = some q ∧
        ∀ p ∈ phases, toOrd q.start ≤ toOrd p.start) ∧
    (∀ (today : Date) (phases : List Phase), phases ≠ [] →
      (∀ p ∈ phases, coversB today p = false) →
      (∃ p ∈ phases, toOrd p.start ≤ toOrd today) →
      ∃ q ∈ phases, determine_phase today phases = some q ∧
        ∀ p ∈ phases, toOrd p.start ≤ toOrd q.start) ∧
    (∀ (today : Date) (phases : List Phase),
      phases.find? (coversB today) = none →
      choose_phase today phases = phases.getLast?) := by
  refine ⟨?_, ?_, ?_, ?_⟩
  · intro today phases p hf
    refine ⟨List.mem_of_find?_eq_some hf, List.find?_some hf, ?_, ?_⟩
    · unfold determine_phase
      rw [hf]
    · unfold choose_phase
      rw [hf]
  · intro today phases hne hbefore
    have hcov : phases.find? (coversB today) = none := by
      rw [List.find?_eq_none]
      intro p hp
      have := hbefore p hp
      simp [coversB]
      omega
    cases hs : isort phaseLe phases with
    | nil => exact absurd hs (isort_phase_ne_nil hne)
    | cons q qs =>
      have hqmem : q ∈ phases := by
        rw [← mem_isort phaseLe q phases, hs]
        exact List.mem_cons_self q qs
      have hqlt : toOrd today < toOrd q.start := hbefore q hqmem
      refine ⟨q, hqmem, ?_, ?_⟩
      · unfold determine_phase
        rw [hcov, hs]
        simp [hqlt]
      · intro p hp
        have hpair := pairwise_isort phaseLe phaseLe_total phaseLe_trans phases
        rw [hs, List.pairwise_cons] at hpair
        have hpmem : p ∈ isort phaseLe phases := (mem_isort phaseLe p phases).mpr hp
        rw [hs] at hpmem
        rcases List.mem_cons.mp hpmem with rfl | hpmem
        · exact le_refl _
        · have := hpair.1 p hpmem
          simpa [phaseLe] using this
  · intro today phases hne hnocov hex
    have hcov : phases.find? (coversB today) = none := by
      rw [List.find?_eq_none]
      intro p hp
      simp [hnocov p hp]
    cases hs : isort phaseLe phases with
    | nil => exact absurd hs (isort_phase_ne_nil hne)
    | cons q qs =>
      have hqmem : q ∈ phases := by
        rw [← mem_isort phaseLe q phases, hs]
        exact List.mem_cons_self q qs
      have hqmin : ∀ p ∈ phases, toOrd q.start ≤ toOrd p.start := by
        intro p hp
        have hpair := pairwise_isort phaseLe phaseLe_total phaseLe_trans phases
        rw [hs, List.pairwise_cons] at hpair
        have hpmem : p ∈ isort phaseLe phases := (mem_isort phaseLe p phases).mpr hp
        rw [hs] at hpmem
        rcases List.mem_cons.mp hpmem with rfl | hpmem
        · exact le_refl _
        · have := hpair.1 p hpmem
          simpa [phaseLe] using this
      have hqnlt : ¬ toOrd today < toOrd q.start := by
        obtain ⟨p0, hp0, hle⟩ := hex
        have := hqmin p0 hp0
        omega
      set L := (q :: qs).getLast (List.cons_ne_nil q qs) with hL
      have hLmem : L ∈ phases := by
        rw [← mem_isort phaseLe L phases, hs]
        exact List.getLast_mem (List.cons_ne_nil q qs)
      refine ⟨L, hLmem, ?_, ?_⟩
      · unfold determine_phase
        rw [hcov, hs]
        simp [hqnlt, hL]
      · intro p hp
        have hpair := pairwise_isort phaseLe phaseLe_total phaseLe_trans phases
        have hpmem : p ∈ isort phaseLe phases := (mem_isort phaseLe p phases).mpr hp
        have hmax := pairwise_last_max (isort phaseLe phases) hpair
          (isort_phase_ne_nil hne) p hpmem
        have hgl : (isort phaseLe phases).getLast (isort_phase_ne_nil hne) = L := by
          rw [hL]
          have hgen : ∀ (l : List Phase) (h : l ≠ []) (he : l = q :: qs),
              l.getLast h = (q :: qs).getLast (List.cons_ne_nil q qs) := by
            intro l h he
            subst he
            rfl
          exact hgen _ _ hs
        rw [hgl] at hmax
        rcases hmax with rfl | hmax
        · exact le_refl _
        · simpa [phaseLe] using hmax
  · intro today phases hcov
    unfold choose_phase
    rw [hcov]

/-- Witness for C2 on a concrete configuration where no phase covers
the target date and the date precedes every start. -/
theorem phase_resolution_amended_witness :
    ∃ q ∈ [(⟨"A", ⟨2025, 2, 1⟩, ⟨2025, 2, 28⟩, []⟩ : Phase),
           (⟨"B", ⟨2025, 3, 1⟩, ⟨2025, 3, 31⟩, []⟩ : Phase)],
      determine_phase ⟨2025, 1, 1⟩
          [⟨"A", ⟨2025, 2, 1⟩, ⟨2025, 2, 28⟩, []⟩,
           ⟨"B", ⟨2025, 3, 1⟩, ⟨2025, 3, 31⟩, []⟩] = some q ∧
        ∀ p ∈ [(⟨"A", ⟨2025, 2, 1⟩, ⟨2025, 2, 28⟩, []⟩ : Phase),
               (⟨"B", ⟨2025, 3, 1⟩, ⟨2025, 3, 31⟩, []⟩ : Phase)],
          toOrd q.start ≤ toOrd p.start :=
  phase_resolution_amended.2.1 ⟨2025, 1, 1⟩
    [⟨"A", ⟨2025, 2, 1⟩, ⟨2025, 2, 28⟩, []⟩,
     ⟨"B", ⟨2025, 3, 1⟩, ⟨2025, 3, 31⟩, []⟩]
    (by decide) (by decide)

/-- Counterexample to C2 as stated: on 2025-01-01, a date preceding the
earliest phase of a two-phase configuration, the minimal-variant
resolver returns the later phase B rather than the earliest phase A. -/
theorem choose_phase_before_earliest_counterexample :
    toOrd (⟨2025, 1, 1⟩ : Date) <
        toOrd (Phase.start ⟨"A", ⟨2025, 2, 1⟩, ⟨2025, 2, 28⟩, []⟩) ∧
    toOrd (⟨2025, 1, 1⟩ : Date) <
        toOrd (Phase.start ⟨"B", ⟨2025, 3, 1⟩, ⟨2025, 3, 31⟩, []⟩) ∧
    toOrd (Phase.start ⟨"A", ⟨2025, 2, 1⟩, ⟨2025, 2, 28⟩, []⟩) <
        toOrd (Phase.start ⟨"B", ⟨2025, 3, 1⟩, ⟨2025, 3, 31⟩, []⟩) ∧
    choose_phase ⟨2025, 1, 1⟩
        [⟨"A", ⟨2025, 2, 1⟩, ⟨2025, 2, 28⟩, []⟩,
         ⟨"B", ⟨2025, 3, 1⟩, ⟨2025, 3, 31⟩, []⟩] =
      some ⟨"B", ⟨2025, 3, 1⟩, ⟨2025, 3, 31⟩, []⟩ ∧
    (⟨"B", ⟨2025, 3, 1⟩, ⟨2025, 3, 31⟩, []⟩ : Phase) ≠
      ⟨"A", ⟨2025, 2, 1⟩, ⟨2025, 2, 28⟩, []⟩ := by
  refine ⟨by decide, by decide, by decide, ?_, by decide⟩
  decide

/-! ## Time-block allocator lemmas -/

theorem build_subject_sequence_ne_nil (allocation : List (String × ℚ)) :
    0 < (build_subject_sequence allocation).length := by
  unfold build_subject_sequence
  dsimp only
  split
  · simp
  · rename_i h
    have hne : (((isort (fun a b => decide (b.2 ≤ a.2)) allocation).map Prod.fst).filter
        (fun key => (SUBJECT_LABEL.lookup key).isSome)) ≠ [] := by
      intro he
      exact h (by simp [he])
    exact List.length_pos.mpr hne

/-- C3: whenever `review` appears in the derived subject order, the
final time block is the review block; every non-final block at index
`i` carries subject `subjects[i mod len(subjects)]` (round-robin). -/
theorem final_block_review_override :
    ∀ (allocation : List (String × ℚ)) (templates : List (String × String)),
      0 < (build_subject_sequence allocation).length ∧
      ("review" ∈ build_subject_sequence allocation →
        (build_plan_blocks allocation templates).getLast? =
          some (make_block templates "review" "21:10" "21:40")) ∧
      (∀ i, i < 5 →
        (build_plan_blocks allocation templates).getD i dummyBlock =
          make_block templates
            ((build_subject_sequence allocation).getD
              (i % (build_subject_sequence allocation).length) "")
            (TIME_BLOCKS.getD i ("", "")).1
            (TIME_BLOCKS.getD i ("", "")).2) := by
  intro allocation templates
  refine ⟨build_subject_sequence_ne_nil allocation, ?_, ?_⟩
  · intro hrev
    simp [build_plan_blocks, TIME_BLOCKS, List.enum, pick_subject, hrev]
  · intro i hi
    have h5 : i = 0 ∨ i = 1 ∨ i = 2 ∨ i = 3 ∨ i = 4 := by omega
    rcases h5 with rfl | rfl | rfl | rfl | rfl <;>
      simp [build_plan_blocks, TIME_BLOCKS, List.enum, pick_subject]

/-- Witness for C3: with allocation giving `review` the top weight, the
final block is the review block, and block 1 is the second subject. -/
theorem final_block_review_override_witness :
    (build_plan_blocks [("review", 2), ("math", 1)] []).getLast? =
      some (make_block [] "review" "21:10" "21:40") ∧
    (build_plan_blocks [("review", 2), ("math", 1)] []).getD 1 dummyBlock =
      make_block []
        ((build_subject_sequence [("review", 2), ("math", 1)]).getD
          (1 % (build_subject_sequence [("review", 2), ("math", 1)]).length) "")
        (TIME_BLOCKS.getD 1 ("", "")).1 (TIME_BLOCKS.getD 1 ("", "")).2 :=
  ⟨(final_block_review_override [("review", 2), ("math", 1)] []).2.1 (by decide),
   (final_block_review_override [("review", 2), ("math", 1)] []).2.2 1 (by decide)⟩

/-- C9: the allocator always returns exactly six blocks whose start and
end times are the fixed windows, in order, for every allocation and
template table. -/
theorem blocks_fixed_windows :
    ∀ (allocation : List (String × ℚ)) (templates : List (String × String)),
      (build_plan_blocks allocation templates).length = 6 ∧
      ∀ i, i < 6 →
        ((build_plan_blocks allocation templates).getD i dummyBlock).start =
            (TIME_BLOCKS.getD i ("", "")).1 ∧
        ((build_plan_blocks allocation templates).getD i dummyBlock).stop =
            (TIME_BLOCKS.getD i ("", "")).2 := by
  intro allocation templates
  constructor
  · simp [build_plan_blocks, TIME_BLOCKS, List.enum]
  · intro i hi
    have h6 : i = 0 ∨ i = 1 ∨ i = 2 ∨ i = 3 ∨ i = 4 ∨ i = 5 := by omega
    rcases h6 with rfl | rfl | rfl | rfl | rfl | rfl <;>
      simp [build_plan_blocks, TIME_BLOCKS, List.enum, make_block]

/-- Witness for C9 at index 0 of a concrete allocation. -/
theorem blocks_fixed_windows_witness :
    ((build_plan_blocks [("math", 1)] []).getD 0 dummyBlock).start =
        (TIME_BLOCKS.getD 0 ("", "")).1 ∧
    ((build_plan_blocks [("math", 1)] []).getD 0 dummyBlock).stop =
        (TIME_BLOCKS.getD 0 ("", "")).2 :=
  (blocks_fixed_windows [("math", 1)] []).2 0 (by decide)

/-- C4: when the date-keyed output path exists and force is off,
persistence performs no write and returns a normal no-op result; a
second persist call for the same path without force leaves the state of
the first call untouched. -/
theorem persist_idempotent :
    (∀ (fs : String → Option String) (path content : String),
      (fs path).isSome = true → persist fs path content false = (fs, false)) ∧
    (∀ (fs : String → Option String) (path c1 c2 : String),
      persist (persist fs path c1 false).1 path c2 false =
        ((persist fs path c1 false).1, false)) := by
  constructor
  · intro fs path content h
    simp [persist, h]
  · intro fs path c1 c2
    by_cases h : (fs path).isSome = true
    · simp [persist, h]
    · simp only [persist, h, Bool.false_and, Bool.and_true, Bool.not_false]
      simp

/-- Witness for C4 at a concrete pre-existing artifact. -/
theorem persist_idempotent_witness :
    persist (fun q => if q = "2025-01-08 周三.md" then some "old" else none)
        "2025-01-08 周三.md" "new" false =
      ((fun q => if q = "2025-01-08 周三.md" then some "old" else none), false) :=
  persist_idempotent.1 (fun q => if q = "2025-01-08 周三.md" then some "old" else none)
    "2025-01-08 周三.md" "new" rfl

/-! ## Checklist parsing lemmas -/

theorem length_filter_map_filter {α β : Type} (p : α → Bool) (f : α → β)
    (q : β → Bool) : ∀ (l : List α),
    (((l.filter p).map f).filter q).length =
      l.countP (fun a => p a && q (f a))
  | [] => rfl
  | a :: l => by
    simp only [List.filter_cons, List.countP_cons]
    by_cases hp : p a
    · simp only [hp, if_pos, List.map_cons, List.filter_cons]
      by_cases hq : q (f a)
      · simp [hp, hq, length_filter_map_filter p f q l]
      · simp [hp, hq, length_filter_map_filter p f q l]
    · simp [hp, length_filter_map_filter p f q l]

theorem filter_map_filter_eq_filterMap {α β : Type} (p : α → Bool) (f : α → β)
    (q : β → Bool) : ∀ (l : List α),
    ((l.filter p).map f).filter q =
      l.filterMap (fun a => if p a && q (f a) then some (f a) else none)
  | [] => rfl
  | a :: l => by
    simp only [List.filter_cons, List.filterMap_cons]
    by_cases hp : p a
    · simp only [hp, if_pos, List.map_cons, List.filter_cons]
      by_cases hq : q (f a)
      · simp [hp, hq, filter_map_filter_eq_filterMap p f q l]
      · simp [hp, hq, filter_map_filter_eq_filterMap p f q l]
    · simp [hp, filter_map_filter_eq_filterMap p f q l]

/-- C6 (amended): the completion rate is `completed/(completed+pending)`
(0 when there are no markers), where the full variant's pending counts
all unchecked-box lines while the minimal variant's pending counts only
unchecked-box lines with non-blank trimmed content; a text with 3 done
and 2 non-blank pending markers yields 3/5 in both variants. -/
theorem completion_rate_amended :
    (∀ text, (parse_yesterday_stats (some text)).completion_rate =
        spec_completion_rate text) ∧
    (∀ (text : String) (k : Nat), (parse_yesterday_stats_min (some text) k).2 =
        (if (lines text).countP (fun l => isTodoLine l && decide (todoText l ≠ "")) +
            (lines text).countP isDoneLine = 0 then (0 : ℚ)
         else ((lines text).countP isDoneLine : ℚ) /
            (((lines text).countP (fun l => isTodoLine l && decide (todoText l ≠ "")) +
              (lines text).countP isDoneLine : Nat) : ℚ))) ∧
    (parse_yesterday_stats
        (some "- [x] a\n- [x] b\n- [x] c\n- [ ] d\n- [ ] e")).completion_rate = 3/5 ∧
    (parse_yesterday_stats_min
        (some "- [x] a\n- [x] b\n- [x] c\n- [ ] d\n- [ ] e") 5).2 = 3/5 ∧
    (parse_yesterday_stats (some "")).completion_rate = 0 ∧
    (parse_yesterday_stats_min (some "") 5).2 = 0 := by
  refine ⟨?_, ?_, ?_, ?_, by decide, by decide⟩
  · intro text
    rfl
  · intro text k
    have hlen := length_filter_map_filter isTodoLine todoText
      (fun s => decide (s ≠ "")) (lines text)
    unfold parse_yesterday_stats_min
    dsimp only
    rw [hlen]
  · have hd : (lines "- [x] a\n- [x] b\n- [x] c\n- [ ] d\n- [ ] e").countP
        isDoneLine = 3 := by decide
    have hp : (lines "- [x] a\n- [x] b\n- [x] c\n- [ ] d\n- [ ] e").countP
        isTodoLine = 2 := by decide
    unfold parse_yesterday_stats
    dsimp only
    rw [hd, hp]
    norm_num
  · have ht : ((((lines "- [x] a\n- [x] b\n- [x] c\n- [ ] d\n- [ ] e").filter
        isTodoLine).map todoText).filter (fun s => decide (s ≠ ""))).length = 2 := by
      decide
    have hd : (lines "- [x] a\n- [x] b\n- [x] c\n- [ ] d\n- [ ] e").countP
        isDoneLine = 3 := by decide
    unfold parse_yesterday_stats_min
    dsimp only
    rw [ht, hd]
    norm_num

/-- Counterexample to C6 as stated: on the text `"- [x] a\n- [ ] "`
(one done marker and one blank-content unchecked-box line) the minimal
variant reports completion rate 1, not the claimed
`completed/(completed+pending) = 1/2`. -/
theorem completion_rate_counterexample :
    spec_completion_rate "- [x] a\n- [ ] " = 1/2 ∧
    (parse_yesterday_stats_min (some "- [x] a\n- [ ] ") 5).2 = 1 ∧
    (parse_yesterday_stats_min (some "- [x] a\n- [ ] ") 5).2 ≠
      spec_completion_rate "- [x] a\n- [ ] " := by
  have h1 : spec_completion_rate "- [x] a\n- [ ] " = 1/2 := by
    have hd : (lines "- [x] a\n- [ ] ").countP isDoneLine = 1 := by decide
    have hp : (lines "- [x] a\n- [ ] ").countP isTodoLine = 1 := by decide
    unfold spec_completion_rate
    dsimp only
    rw [hd, hp]
    norm_num
  have h2 : (parse_yesterday_stats_min (some "- [x] a\n- [ ] ") 5).2 = 1 := by
    have ht : ((((lines "- [x] a\n- [ ] ").filter isTodoLine).map todoText).filter
        (fun s => decide (s ≠ ""))).length = 0 := by decide
    have hd : (lines "- [x] a\n- [ ] ").countP isDoneLine = 1 := by decide
    unfold parse_yesterday_stats_min
    dsimp only
    rw [ht, hd]
    norm_num
  refine ⟨h1, h2, ?_⟩
  rw [h1, h2]
  norm_num

/-- C7 (amended): the carry list is the sequence of trimmed texts of
unchecked-box lines whose trimmed text is non-blank, in source order,
truncated to at most `carry_limit` items; in particular it is a
sublist of the trimmed texts of all unchecked-box lines and never
exceeds the limit. -/
theorem carry_list_amended :
    ∀ (text : String) (carry_limit : Nat),
      (parse_yesterday_stats_min (some text) carry_limit).1 =
        ((lines text).filterMap (fun l =>
          if isTodoLine l && decide (todoText l ≠ "") then some (todoText l)
          else none)).take carry_limit ∧
      ((parse_yesterday_stats_min (some text) carry_limit).1).Sublist
        (((lines text).filter isTodoLine).map todoText) ∧
      (parse_yesterday_stats_min (some text) carry_limit).1.length ≤ carry_limit := by
  intro text k
  refine ⟨?_, ?_, ?_⟩
  · unfold parse_yesterday_stats_min
    dsimp only
    rw [filter_map_filter_eq_filterMap]
  · unfold parse_yesterday_stats_min
    dsimp only
    exact (List.take_sublist k _).trans (List.filter_sublist _)
  · unfold parse_yesterday_stats_min
    dsimp only
    rw [List.length_take]
    exact min_le_left _ _

/-- Counterexample to C7 as stated: on `"- [ ] \n- [ ] a"` with limit
2, the claimed carry list (trimmed texts of all unchecked-box lines)
is `["", "a"]`, but the code drops the blank entry and yields
`["a"]`. -/
theorem carry_list_counterexample :
    (parse_yesterday_stats_min (some "- [ ] \n- [ ] a") 2).1 = ["a"] ∧
    spec_carry_list "- [ ] \n- [ ] a" 2 = ["", "a"] ∧
    (parse_yesterday_stats_min (some "- [ ] \n- [ ] a") 2).1 ≠
      spec_carry_list "- [ ] \n- [ ] a" 2 :=
  ⟨by decide, by decide, by decide⟩

/-- C10: the full-variant stats extractor never returns an empty
unfinished-task list: a missing prior file yields the sentinel message,
and a file with no non-blank unchecked-box texts yields the placeholder
`["无"]`. -/
theorem unfinished_never_empty :
    (parse_yesterday_stats none).unfinished_tasks =
      ["无昨日计划文件或未记录任务"] ∧
    (∀ text,
      (((lines text).filter isTodoLine).map todoText).filter
          (fun s => decide (s ≠ "")) = [] →
      (parse_yesterday_stats (some text)).unfinished_tasks = ["无"]) ∧
    (∀ contents, (parse_yesterday_stats contents).unfinished_tasks ≠ []) := by
  refine ⟨rfl, ?_, ?_⟩
  · intro text h
    unfold parse_yesterday_stats
    dsimp only
    rw [h]
    simp
  · intro contents
    cases contents with
    | none => simp [parse_yesterday_stats]
    | some text =>
      unfold parse_yesterday_stats
      dsimp only
      split
      · simp
      · rename_i h
        exact h

/-- Witness for C10 at a concrete prior file with no unchecked-box
lines. -/
theorem unfinished_never_empty_witness :
    (parse_yesterday_stats (some "hello")).unfinished_tasks = ["无"] :=
  unfinished_never_empty.2.1 "hello" (by decide)
